import Mathlib

/-!
Verification development for the Jarvis-Tauri inference & memory frontend.

The definitions below are shallow embeddings of:
* the reference generation loop from the implementation note
  (`jarvis_test_doc.md`, `generate`),
* the Svelte chat store (`jarvis-app/src/lib/stores/chat.ts`),
* the memory store frontend (`stores/memory.ts`),
* the sensor store (`jarvis-app/src/lib/stores/sensors.ts`),
and, where the Rust backend is absent from the sources, models taken
from the specification text (clearly marked as such).
-/

namespace Jarvis

/-! ## List windowing helper

JavaScript `array.slice(-n)` on an array of length `L` returns the
elements from index `max(L - n, 0)`, i.e. the last `n` (or all, when
shorter).  Natural subtraction gives exactly that. -/

/-- JavaScript `l.slice(-n)`: `takeLast n l` is the suffix of `l` of
length `min n l.length`. -/
def takeLast (n : Nat) (l : List α) : List α :=
  l.drop (l.length - n)

theorem takeLast_of_le {n : Nat} {l : List α} (h : l.length ≤ n) :
    takeLast n l = l := by
  unfold takeLast
  rw [Nat.sub_eq_zero_of_le h, List.drop_zero]

theorem takeLast_cons_of_le {n : Nat} (a : α) {l : List α} (h : n ≤ l.length) :
    takeLast n (a :: l) = takeLast n l := by
  unfold takeLast
  have : (a :: l).length - n = (l.length - n) + 1 := by
    simp only [List.length_cons]; omega
  rw [this, List.drop_succ_cons]

theorem length_takeLast (n : Nat) (l : List α) :
    (takeLast n l).length ≤ n := by
  unfold takeLast
  rw [List.length_drop]
  omega

/-- Re-windowing: taking the last `n` of an already-windowed list with
more elements appended is the same as windowing the full list. -/
theorem takeLast_append_takeLast (n : Nat) (l m : List α) :
    takeLast n (takeLast n l ++ m) = takeLast n (l ++ m) := by
  induction l with
  | nil => simp [takeLast]
  | cons a l ih =>
    rcases le_or_lt (a :: l).length n with h | h
    · rw [takeLast_of_le h]
    · have hl : n ≤ l.length := by
        simp only [List.length_cons] at h; omega
      have hlm : n ≤ (l ++ m).length := by
        rw [List.length_append]; omega
      rw [takeLast_cons_of_le a hl, List.cons_append,
        takeLast_cons_of_le a hlm, ih]

/-! ## Reference generation loop (`jarvis_test_doc.md`, `generate`)

The note's Rust loop, shallowly embedded.  The model is abstracted over
the sampler/vocabulary: `sample p` is the token the sampler yields when
the current position is `p`, `isEog` is `model.is_eog_token`, and
`tokenToStr` is `model.token_to_str`.  The loop body is

    let mut n_cur = tokens.len() as i32;
    while n_cur < max_tokens {
        let token = sampler.sample(..);
        if model.is_eog_token(token) { break; }
        response.push_str(&token_str);
        ...
        n_cur += 1;
    }

so the number of iterations still available when entering the loop at
position `n_cur` is `max_tokens - n_cur`, which we pass as fuel. -/

structure GenModel where
  sample : Nat → Nat
  isEog : Nat → Bool
  tokenToStr : Nat → String

inductive StopReason
  | eog
  | maxLen
  deriving DecidableEq, Repr

/-- One execution of the `while n_cur < max_tokens` loop, with
`fuel = max_tokens - n_cur` remaining iterations.  Returns the
accumulated response, the number of tokens produced after the prompt,
and the reason the loop stopped. -/
def genLoop (m : GenModel) : Nat → Nat → String → Nat → String × Nat × StopReason
  | 0, _, acc, produced => (acc, produced, .maxLen)
  | fuel + 1, nCur, acc, produced =>
    let t := m.sample nCur
    if m.isEog t then (acc, produced, .eog)
    else genLoop m fuel (nCur + 1) (acc ++ m.tokenToStr t) (produced + 1)

/-- The constant `let max_tokens = 256;` of the reference loop. -/
def max_tokens : Nat := 256

/-- The `generate` skeleton after prefilling a prompt of `promptLen`
tokens: `n_cur` starts at the prompt length. -/
def generate (m : GenModel) (promptLen : Nat) : String × Nat × StopReason :=
  genLoop m (max_tokens - promptLen) promptLen "" 0

theorem genLoop_maxLen_produced (m : GenModel) :
    ∀ fuel nCur acc produced,
      (genLoop m fuel nCur acc produced).2.2 = .maxLen →
      (genLoop m fuel nCur acc produced).2.1 = produced + fuel := by
  intro fuel
  induction fuel with
  | zero => intro nCur acc produced _; rfl
  | succ fuel ih =>
    intro nCur acc produced h
    cases he : m.isEog (m.sample nCur) with
    | true => simp [genLoop, he] at h
    | false =>
      simp only [genLoop, he] at h ⊢
      simp only [Bool.false_eq_true, if_false] at h ⊢
      rw [ih _ _ _ h]
      omega

/-- A model that never emits an end-of-generation token and decodes
every token to the empty string. -/
def gmNoEog : GenModel :=
  { sample := fun _ => 0, isEog := fun _ => false, tokenToStr := fun _ => "" }

/-! ## JavaScript string trimming

`String.prototype.trim` removes whitespace (spaces, tabs, line
terminators, NBSP, BOM, …) from both ends.  We model the common
whitespace code points. -/

def isJsWhitespace (c : Char) : Bool :=
  c = ' ' || c = '\t' || c = '\n' || c = '\r' ||
  c = '\x0b' || c = '\x0c' || c = '\u00A0' || c = '\uFEFF'

/-- JavaScript `s.trim()`. -/
def jsTrim (s : String) : String :=
  ⟨((s.data.dropWhile isJsWhitespace).reverse.dropWhile isJsWhitespace).reverse⟩

/-! ## Chat store (`jarvis-app/src/lib/stores/chat.ts`) -/

inductive Role
  | user
  | assistant
  | system
  deriving DecidableEq, Repr

structure ChatMessage where
  id : String
  role : Role
  content : String
  timestamp : Nat
  memoryContextUsed : Option Bool := none
  memoriesRetrieved : Option Nat := none
  deriving DecidableEq, Repr

structure ThoughtLog where
  step : String
  detail : String
  timestamp : Nat
  deriving DecidableEq, Repr

/-- The four writable stores of `chat.ts`. -/
structure ChatState where
  messages : List ChatMessage
  currentResponse : String
  thoughtLogs : List ThoughtLog
  isProcessing : Bool
  deriving DecidableEq, Repr

/-- Initial store values of `chat.ts`. -/
def initialChatState : ChatState :=
  { messages := [], currentResponse := "", thoughtLogs := [], isProcessing := false }

/-- The constant `const MAX_THOUGHT_LOGS = 20;`. -/
def MAX_THOUGHT_LOGS : Nat := 20

/-- Environment values read inside the handlers: `crypto.randomUUID()`
and `Date.now()`. -/
structure Env where
  freshId : String
  now : Nat
  deriving DecidableEq, Repr

/-- A fixed environment for concrete runs. -/
def env0 : Env := { freshId := "id", now := 0 }

/-- The three streaming events `startStreamingChat` subscribes to:
`chat:token` (payload: text fragment), `chat:thought` (payload: a
thought log) and `chat:complete`. -/
inductive FrontEvt
  | token (payload : String)
  | thought (t : ThoughtLog)
  | complete
  deriving DecidableEq, Repr

/-- One listener callback of `startStreamingChat`:
* `chat:token`: `currentResponse.update(r => r + event.payload + ' ')`;
* `chat:thought`: append and `slice(-MAX_THOUGHT_LOGS)`;
* `chat:complete`: read `currentResponse` (via the immediate
  subscribe-call), append it trimmed as an assistant message if truthy,
  then reset `currentResponse` and `isProcessing`. -/
def handleEvt (env : Env) (st : ChatState) : FrontEvt → ChatState
  | .token payload =>
    { st with currentResponse := st.currentResponse ++ payload ++ " " }
  | .thought t =>
    { st with thoughtLogs := takeLast MAX_THOUGHT_LOGS (st.thoughtLogs ++ [t]) }
  | .complete =>
    let msgs :=
      if st.currentResponse = "" then st.messages
      else st.messages ++
        [{ id := env.freshId, role := .assistant,
           content := jsTrim st.currentResponse, timestamp := env.now }]
    { st with messages := msgs, currentResponse := "", isProcessing := false }

/-- Deliver a sequence of streaming events to the listeners, in arrival
order. -/
def runEvts (env : Env) (st : ChatState) (evts : List FrontEvt) : ChatState :=
  evts.foldl (handleEvt env) st

/-- The thought events contained in a stream, in arrival order. -/
def extractThoughts (evts : List FrontEvt) : List ThoughtLog :=
  evts.filterMap fun
    | .thought t => some t
    | _ => none

/-- The value `currentResponse` accumulates from the token fragments of
a stream: each fragment followed by the `' '` the token listener
appends. -/
def joinFrags : List String → String
  | [] => ""
  | f :: rest => f ++ " " ++ joinFrags rest

/-- The state right after `startStreamingChat` has recorded the user
message and set up the listeners (before any stream event arrives). -/
def streamingStartState (env : Env) (content : String) (st : ChatState) : ChatState :=
  { st with
    messages := st.messages ++
      [{ id := env.freshId, role := .user, content := content, timestamp := env.now }],
    isProcessing := true,
    currentResponse := "" }

/-- Backend commands invoked through `invoke`. -/
inductive BackendCall
  | chat (message : String)
  | start_chat_stream (message : String)
  deriving DecidableEq, Repr

/-- The full `chat` response payload. -/
structure ChatResponse where
  message : String
  memory_context_used : Bool
  memories_retrieved : Nat
  deriving DecidableEq, Repr

/-- The `sendMessage(content)` entry point: returns the final store state and the list
of backend invocations it performed.  `invokeResult` is the outcome of
the `invoke('chat', …)` call (`Except.error` models a thrown error,
whose message JS renders into the template). -/
def sendMessage (env : Env) (content : String)
    (invokeResult : Except String ChatResponse) (st : ChatState) :
    ChatState × List BackendCall :=
  if jsTrim content = "" then (st, [])
  else
    let st : ChatState :=
      { st with
        messages := st.messages ++
          [{ id := env.freshId, role := .user, content := content, timestamp := env.now }],
        isProcessing := true,
        currentResponse := "" }
    match invokeResult with
    | .ok response =>
      let st : ChatState :=
        { st with
          messages := st.messages ++
            [{ id := env.freshId, role := .assistant, content := response.message,
               timestamp := env.now,
               memoryContextUsed := some response.memory_context_used,
               memoriesRetrieved := some response.memories_retrieved }] }
      ({ st with isProcessing := false }, [.chat content])
    | .error e =>
      let st : ChatState :=
        { st with
          messages := st.messages ++
            [{ id := env.freshId, role := .assistant, content := "Error: " ++ e,
               timestamp := env.now }] }
      ({ st with isProcessing := false }, [.chat content])

/-- The `startStreamingChat(content)` entry point: blank-input guard, user message,
listener setup, then the events delivered on the channel (a failed
`invoke` additionally resets `isProcessing`). -/
def startStreamingChat (env : Env) (content : String)
    (evts : List FrontEvt) (invokeOk : Bool) (st : ChatState) :
    ChatState × List BackendCall :=
  if jsTrim content = "" then (st, [])
  else
    let st := streamingStartState env content st
    let st := runEvts env st evts
    if invokeOk then (st, [.start_chat_stream content])
    else ({ st with isProcessing := false }, [.start_chat_stream content])

/-! ## Memory store frontend (`stores/memory.ts`) -/

structure UserProfile where
  name : Option String
  facts : List String
  created_at : Option String
  updated_at : Option String
  deriving DecidableEq, Repr

structure Preference where
  category : String
  key : String
  value : String
  created_at : Option String
  deriving DecidableEq, Repr

structure Memory where
  id : Nat
  content : String
  category : String
  importance : Nat
  created_at : Option String
  last_accessed : Option String
  deriving DecidableEq, Repr

/-- The writable stores of `memory.ts`. -/
structure MemState where
  memoryAccessActive : Bool
  userProfile : UserProfile
  preferences : List Preference
  memories : List Memory
  memoryContext : String
  deriving DecidableEq, Repr

/-- Initial store values of `memory.ts`. -/
def initialMemState : MemState :=
  { memoryAccessActive := false,
    userProfile := { name := none, facts := [], created_at := none, updated_at := none },
    preferences := [],
    memories := [],
    memoryContext := "" }

/-- The `saveMemory(content, category, importance)` operation: raises the memory
indicator, invokes `add_memory`, appends the new record locally and
lowers the indicator; a thrown backend error is caught, the indicator
is lowered and `null` (here `none`) is returned. -/
def saveMemory (content category : String) (importance : Nat) (nowIso : String)
    (invokeResult : Except String Nat) (st : MemState) :
    Option Nat × MemState :=
  let st : MemState := { st with memoryAccessActive := true }
  match invokeResult with
  | .ok id =>
    let st : MemState :=
      { st with
        memories := st.memories ++
          [{ id := id, content := content, category := category,
             importance := importance, created_at := some nowIso,
             last_accessed := none }] }
    (some id, { st with memoryAccessActive := false })
  | .error _ =>
    (none, { st with memoryAccessActive := false })

/-- The `searchMemories(query, limit)` operation: raises the indicator, invokes
`search_memories`, replaces the local `memories` store with the results
and lowers the indicator; on a thrown error it lowers the indicator and
returns `[]`. -/
def searchMemories (_query : String) (_limit : Nat)
    (invokeResult : Except String (List Memory)) (st : MemState) :
    List Memory × MemState :=
  let st : MemState := { st with memoryAccessActive := true }
  match invokeResult with
  | .ok results =>
    let st : MemState := { st with memories := results }
    (results, { st with memoryAccessActive := false })
  | .error _ =>
    ([], { st with memoryAccessActive := false })

/-- The `loadMemoryContext()` operation: raises the indicator, invokes
`get_memory_context`, stores it and lowers the indicator; on a thrown
error it lowers the indicator and returns `''`.  The function is total:
it never re-throws to the caller. -/
def loadMemoryContext (invokeResult : Except String String) (st : MemState) :
    String × MemState :=
  let st : MemState := { st with memoryAccessActive := true }
  match invokeResult with
  | .ok context =>
    let st : MemState := { st with memoryContext := context }
    (context, { st with memoryAccessActive := false })
  | .error _ =>
    ("", { st with memoryAccessActive := false })

/-- JavaScript `Array.prototype.findIndex`, with `-1` modelled as
`none`. -/
def findIndex (p : α → Bool) : List α → Option Nat
  | [] => none
  | x :: xs => if p x then some 0 else (findIndex p xs).map (· + 1)

/-- The `preferences.update` callback of `setPreference`: find an
existing entry for `(category, key)`, replace it in place if present,
otherwise append the new entry. -/
def setPrefLocalUpdate (category key value nowIso : String)
    (prefs : List Preference) : List Preference :=
  let newPref : Preference :=
    { category := category, key := key, value := value, created_at := some nowIso }
  match findIndex (fun p => p.category == category && p.key == key) prefs with
  | some i => prefs.set i newPref
  | none => prefs ++ [newPref]

/-- The `setPreference(category, key, value)` operation: invokes the backend and, on
success, mirrors the upsert into the local `preferences` store; a
thrown error is caught and the local store left unchanged. -/
def setPreference (category key value nowIso : String)
    (invokeResult : Except String Unit) (st : MemState) : MemState :=
  match invokeResult with
  | .ok _ => { st with preferences := setPrefLocalUpdate category key value nowIso st.preferences }
  | .error _ => st

/-- One `setPreference` call: its arguments plus the wall-clock ISO
timestamp read inside the update. -/
structure PrefCall where
  category : String
  key : String
  value : String
  nowIso : String
  deriving DecidableEq, Repr

/-- A sequence of (successful) `setPreference` calls applied to the
initially empty `preferences` store. -/
def runSetPrefs (calls : List PrefCall) : List Preference :=
  calls.foldl (fun prefs c => setPrefLocalUpdate c.category c.key c.value c.nowIso prefs) []

/-- The values stored for a given `(category, key)` pair. -/
def valsFor (prefs : List Preference) (cat key : String) : List String :=
  (prefs.filter fun p => p.category == cat && p.key == key).map fun p => p.value

/-- The value of the most recent call for `(cat, key)` in a sequence of
`setPreference` calls, if any. -/
def lastSetValue (calls : List PrefCall) (cat key : String) : Option String :=
  ((calls.filter fun c => c.category == cat && c.key == key).map fun c => c.value).getLast?

/-- The `(category, key)` identification of each entry. -/
def prefKeys (prefs : List Preference) : List (String × String) :=
  prefs.map fun p => (p.category, p.key)

/-- No two entries share a `(category, key)` pair. -/
def keysNodup (prefs : List Preference) : Prop :=
  (prefKeys prefs).Nodup

/-! ## Sensor store (`jarvis-app/src/lib/stores/sensors.ts`) -/

/-- One `SensorData` payload; JavaScript numbers are modelled as
rationals (no arithmetic is performed on them here). -/
structure SensorData where
  cpu_usage : ℚ
  memory_used : ℚ
  memory_total : ℚ
  memory_percent : ℚ
  timestamp : ℚ
  deriving DecidableEq, Repr

/-- The sensor stores touched by the `sensor:update` pipeline. -/
structure SensorState where
  sensorData : SensorData
  isConnected : Bool
  cpuHistory : List ℚ
  memoryHistory : List ℚ
  deriving DecidableEq, Repr

/-- The constant `const MAX_HISTORY = 60;`. -/
def MAX_HISTORY : Nat := 60

/-- The `sensorData.subscribe` callback: append the sample and keep the
last `MAX_HISTORY` (`slice(-MAX_HISTORY)`). -/
def historySubscribeCallback (st : SensorState) (d : SensorData) : SensorState :=
  { st with
    cpuHistory := takeLast MAX_HISTORY (st.cpuHistory ++ [d.cpu_usage]),
    memoryHistory := takeLast MAX_HISTORY (st.memoryHistory ++ [d.memory_percent]) }

/-- Module initialisation of `sensors.ts`: the stores start with a zero
reading (timestamp `Date.now()`), empty histories, and the top-level
`sensorData.subscribe` immediately and synchronously runs its callback
on the current (initial) value, as Svelte store subscription does. -/
def moduleInitSensorState (t0 : ℚ) : SensorState :=
  let init : SensorData :=
    { cpu_usage := 0, memory_used := 0, memory_total := 0,
      memory_percent := 0, timestamp := t0 }
  historySubscribeCallback
    { sensorData := init, isConnected := false, cpuHistory := [], memoryHistory := [] }
    init

/-- The `sensor:update` listener: `sensorData.set` (which re-runs the
subscribed history callback) and `isConnected.set(true)`. -/
def handleSensorUpdate (st : SensorState) (d : SensorData) : SensorState :=
  let st := historySubscribeCallback { st with sensorData := d } d
  { st with isConnected := true }

/-- Deliver a sequence of `sensor:update` events in arrival order. -/
def runSensorUpdates (st : SensorState) (updates : List SensorData) : SensorState :=
  updates.foldl handleSensorUpdate st

/-- A concrete sensor reading. -/
def sensorSample5 : SensorData :=
  { cpu_usage := 5, memory_used := 1, memory_total := 2,
    memory_percent := 50, timestamp := 1 }

/-! ## Streaming Coordinator (modelled from the spec) -/

inductive TerminalEvent
  | complete
  | cancelled
  | error
  deriving DecidableEq, Repr

/-- An event on the streaming channel: a token fragment or the single
terminal event of the generation. -/
inductive StreamEvt
  | token (s : String)
  | terminal (t : TerminalEvent)
  deriving DecidableEq, Repr

def isTerminalEvt : StreamEvt → Bool
  | .terminal _ => true
  | _ => false

/-- Modelled from the spec: the Streaming Coordinator and the
cancellation-aware generation loop live in the Rust backend, which is
absent from the sources (the frontend only subscribes to its events).
Per §4.5/§4.6: at each decode step the loop samples a token and checks
termination — end-of-sequence or the length cap yield a `complete`
terminal event, an observed cancellation flag yields a `cancelled`
terminal event and stops the loop before any `complete` is produced;
otherwise the token is emitted and the loop continues.  `cancelFlag p`
is the cancellation flag as observed at position `p`, `fuel` the
remaining length budget. -/
def coordLoop (m : GenModel) (cancelFlag : Nat → Bool) :
    Nat → Nat → List StreamEvt
  | 0, _ => [.terminal .complete]
  | fuel + 1, nCur =>
    let t := m.sample nCur
    if m.isEog t then [.terminal .complete]
    else if cancelFlag nCur then [.terminal .cancelled]
    else .token (m.tokenToStr t) :: coordLoop m cancelFlag fuel (nCur + 1)

/-! ## Claim theorems -/

set_option maxRecDepth 4000 in
/-- C1 (counterexample): with a model that never emits end-of-sequence
and a prompt of length 1, the loop stops for length, yet the number of
produced tokens is 255, not the configured maximum 256: `n_cur` starts
at the prompt length, so the cap counts prompt positions too. -/
theorem C1_counterexample :
    (generate gmNoEog 1).2.2 = StopReason.maxLen ∧
    (generate gmNoEog 1).2.1 ≠ max_tokens := by
  decide

/-- C1 (amended): the decode/sample loop stops when the total position
(prompt plus produced tokens) reaches the configured maximum of 256, so
at a max-length stop the produced-token count equals the maximum minus
the prompt length, not the maximum itself. -/
theorem C1_maxLen_stop_produced (m : GenModel) (promptLen : Nat)
    (h : (generate m promptLen).2.2 = StopReason.maxLen) :
    (generate m promptLen).2.1 = max_tokens - promptLen := by
  unfold generate at h ⊢
  rw [genLoop_maxLen_produced m _ _ _ _ h]
  omega

set_option maxRecDepth 4000 in
/-- C1 (witness): a concrete max-length stop at prompt length 1. -/
theorem C1_witness :
    (generate gmNoEog 1).2.2 = StopReason.maxLen ∧
    (generate gmNoEog 1).2.1 = max_tokens - 1 :=
  ⟨by decide, C1_maxLen_stop_produced gmNoEog 1 (by decide)⟩

theorem coordLoop_one_terminal (m : GenModel) (cancelFlag : Nat → Bool) :
    ∀ fuel nCur,
      (coordLoop m cancelFlag fuel nCur).countP isTerminalEvt = 1 ∧
      ¬(StreamEvt.terminal .complete ∈ coordLoop m cancelFlag fuel nCur ∧
        StreamEvt.terminal .cancelled ∈ coordLoop m cancelFlag fuel nCur) := by
  intro fuel
  induction fuel with
  | zero =>
    intro nCur
    refine ⟨rfl, ?_⟩
    simp [coordLoop]
  | succ fuel ih =>
    intro nCur
    cases he : m.isEog (m.sample nCur) with
    | true =>
      simp only [coordLoop, he, if_true]
      exact ⟨rfl, by simp⟩
    | false =>
      cases hc : cancelFlag nCur with
      | true =>
        simp only [coordLoop, he, hc, Bool.false_eq_true, if_false, if_true]
        exact ⟨rfl, by simp⟩
      | false =>
        simp only [coordLoop, he, hc, Bool.false_eq_true, if_false]
        constructor
        · rw [List.countP_cons_of_neg]
          · exact (ih (nCur + 1)).1
          · simp [isTerminalEvt]
        · intro hmem
          exact (ih (nCur + 1)).2
            ⟨by simpa using hmem.1, by simpa using hmem.2⟩

/-- C2: every coordinator run delivers exactly one terminal event, a
run never contains both a `complete` and a `cancelled` terminal, and
whenever the loop observes the set cancellation flag before a natural
stop, the run ends with the `cancelled` terminal (so no `complete`
event is delivered for it). -/
theorem C2_cancel_exclusive_terminal (m : GenModel) (cancelFlag : Nat → Bool)
    (fuel nCur : Nat) :
    (coordLoop m cancelFlag fuel nCur).countP isTerminalEvt = 1 ∧
    ¬(StreamEvt.terminal .complete ∈ coordLoop m cancelFlag fuel nCur ∧
      StreamEvt.terminal .cancelled ∈ coordLoop m cancelFlag fuel nCur) ∧
    (cancelFlag nCur = true → m.isEog (m.sample nCur) = false → 0 < fuel →
      coordLoop m cancelFlag fuel nCur = [.terminal .cancelled]) := by
  refine ⟨(coordLoop_one_terminal m cancelFlag fuel nCur).1,
    (coordLoop_one_terminal m cancelFlag fuel nCur).2, ?_⟩
  intro hc he hf
  cases fuel with
  | zero => exact absurd hf (by decide)
  | succ fuel => simp [coordLoop, he, hc]

/-- C2 (witness): with the cancellation flag set and a model that does
not stop naturally, the run is exactly a single `cancelled` terminal
event. -/
theorem C2_witness :
    coordLoop gmNoEog (fun _ => true) 5 0 = [.terminal .cancelled] :=
  (C2_cancel_exclusive_terminal gmNoEog (fun _ => true) 5 0).2.2 rfl rfl (by decide)

theorem joinFrags_ne_empty (f : String) (rest : List String) :
    joinFrags (f :: rest) ≠ "" := by
  intro h
  have hlen : (joinFrags (f :: rest)).length = 0 := by rw [h]; rfl
  have hsp : (" " : String).length = 1 := rfl
  rw [joinFrags, String.length_append, String.length_append, hsp] at hlen
  omega

theorem runEvts_cons (env : Env) (st : ChatState) (e : FrontEvt) (evts : List FrontEvt) :
    runEvts env st (e :: evts) = runEvts env (handleEvt env st e) evts := rfl

/-- Token events only grow `currentResponse`, by the fragments each
followed by the appended `' '`. -/
theorem runEvts_tokens (env : Env) (fs : List String) :
    ∀ st : ChatState,
      runEvts env st (fs.map FrontEvt.token)
        = { st with currentResponse := st.currentResponse ++ joinFrags fs } := by
  induction fs with
  | nil =>
    intro st
    show st = _
    rw [joinFrags, String.append_empty]
  | cons f rest ih =>
    intro st
    rw [List.map_cons, runEvts_cons, ih]
    simp only [handleEvt, joinFrags, String.append_assoc]

/-- C3 (counterexample): streaming the two fragments `"a"`, `"b"` and
completing records the assistant message `"a b"` — the listener appends
`' '` after every fragment and the completion handler trims — which is
not the exact concatenation `"ab"` of the fragments. -/
theorem C3_counterexample :
    ((runEvts env0 (streamingStartState env0 "hi" initialChatState)
        [.token "a", .token "b", .complete]).messages.map fun msg => msg.content)
      = ["hi", "a b"] ∧ ("a b" : String) ≠ "ab" := by
  constructor
  · rfl
  · decide

/-- C3 (amended): the finished assistant message recorded at the
`complete` event is the arrival-ordered concatenation of the token
fragments *each suffixed with one space character*, with surrounding
whitespace trimmed — no fragment is dropped or reordered, but a space
is inserted after every fragment. -/
theorem C3_complete_records_spaced_concat (env : Env) (st : ChatState)
    (fs : List String) (h0 : st.currentResponse = "") (hne : fs ≠ []) :
    (runEvts env st (fs.map FrontEvt.token ++ [FrontEvt.complete])).messages
      = st.messages ++
        [{ id := env.freshId, role := .assistant,
           content := jsTrim (joinFrags fs), timestamp := env.now }] := by
  have hsplit :
      runEvts env st (fs.map FrontEvt.token ++ [FrontEvt.complete])
        = handleEvt env (runEvts env st (fs.map FrontEvt.token)) .complete := by
    unfold runEvts
    rw [List.foldl_append]
    rfl
  rw [hsplit, runEvts_tokens env fs st, h0, String.empty_append]
  cases fs with
  | nil => exact absurd rfl hne
  | cons f rest =>
    simp only [handleEvt, if_neg (joinFrags_ne_empty f rest)]

/-- C3 (witness): the fragments `"a"`, `"b"` from the pristine store
state record exactly one assistant message with the spaced, trimmed
content. -/
theorem C3_witness :
    initialChatState.currentResponse = "" ∧ (["a", "b"] : List String) ≠ [] ∧
    (runEvts env0 initialChatState
        ((["a", "b"]).map FrontEvt.token ++ [FrontEvt.complete])).messages
      = initialChatState.messages ++
        [{ id := env0.freshId, role := .assistant,
           content := jsTrim (joinFrags ["a", "b"]), timestamp := env0.now }] :=
  ⟨rfl, by decide,
    C3_complete_records_spaced_concat env0 initialChatState ["a", "b"] rfl (by decide)⟩

theorem runEvts_no_complete_monotone (env : Env) (evts : List FrontEvt) :
    ∀ st : ChatState, FrontEvt.complete ∉ evts →
      ∃ suffix, (runEvts env st evts).currentResponse = st.currentResponse ++ suffix := by
  induction evts with
  | nil =>
    intro st _
    exact ⟨"", (String.append_empty _).symm⟩
  | cons e rest ih =>
    intro st h
    rw [List.mem_cons, not_or] at h
    rw [runEvts_cons]
    cases e with
    | token q =>
      obtain ⟨u, hu⟩ := ih (handleEvt env st (.token q)) h.2
      refine ⟨q ++ " " ++ u, ?_⟩
      rw [hu]
      simp only [handleEvt, String.append_assoc]
    | thought t =>
      obtain ⟨u, hu⟩ := ih (handleEvt env st (.thought t)) h.2
      exact ⟨u, hu⟩
    | complete => exact absurd rfl h.1

/-- C4: the accumulated partial response is non-decreasing: a token
event extends `currentResponse` by its fragment plus the appended
space, and across any stream prefix containing no terminal event the
old value stays a prefix of the new one. -/
theorem C4_currentResponse_monotone (env : Env) (st : ChatState) (p : String)
    (evts : List FrontEvt) :
    (handleEvt env st (.token p)).currentResponse
      = st.currentResponse ++ (p ++ " ") ∧
    (FrontEvt.complete ∉ evts →
      ∃ suffix, (runEvts env st evts).currentResponse = st.currentResponse ++ suffix) := by
  constructor
  · simp only [handleEvt, String.append_assoc]
  · exact runEvts_no_complete_monotone env evts st

/-- C4 (witness): a concrete terminal-free stream only extends the
accumulated text. -/
theorem C4_witness :
    FrontEvt.complete ∉ ([.token "x", .thought ⟨"plan", "step", 1⟩] : List FrontEvt) ∧
    ∃ suffix,
      (runEvts env0 initialChatState [.token "x", .thought ⟨"plan", "step", 1⟩]).currentResponse
        = initialChatState.currentResponse ++ suffix :=
  ⟨by decide,
    (C4_currentResponse_monotone env0 initialChatState "x"
      [.token "x", .thought ⟨"plan", "step", 1⟩]).2 (by decide)⟩

/-- C6: when the backing store invocation fails, `loadMemoryContext`
catches the error and returns the empty memory context; the function is
total, so no exception propagates to the caller. -/
theorem C6_loadMemoryContext_degrades (e : String) (st : MemState) :
    (loadMemoryContext (Except.error e) st).1 = "" := rfl

/-- C9: every memory-store frontend operation that raises the
memory-access indicator lowers it again before returning, on both the
success and the error path. -/
theorem C9_memory_indicator_lowered
    (content category : String) (importance : Nat) (nowIso : String)
    (r1 : Except String Nat) (st1 : MemState)
    (q : String) (lim : Nat) (r2 : Except String (List Memory)) (st2 : MemState)
    (r3 : Except String String) (st3 : MemState) :
    (saveMemory content category importance nowIso r1 st1).2.memoryAccessActive = false ∧
    (searchMemories q lim r2 st2).2.memoryAccessActive = false ∧
    (loadMemoryContext r3 st3).2.memoryAccessActive = false := by
  refine ⟨?_, ?_, ?_⟩
  · cases r1 <;> rfl
  · cases r2 <;> rfl
  · cases r3 <;> rfl

theorem setPrefLocalUpdate_cons_pos {c k : String} (v t : String)
    {p : Preference} (rest : List Preference)
    (h : (p.category == c && p.key == k) = true) :
    setPrefLocalUpdate c k v t (p :: rest)
      = { category := c, key := k, value := v, created_at := some t } :: rest := by
  simp only [setPrefLocalUpdate, findIndex, h, if_true]
  rfl

theorem setPrefLocalUpdate_cons_neg {c k : String} (v t : String)
    {p : Preference} (rest : List Preference)
    (h : (p.category == c && p.key == k) = false) :
    setPrefLocalUpdate c k v t (p :: rest)
      = p :: setPrefLocalUpdate c k v t rest := by
  simp only [setPrefLocalUpdate, findIndex, h, Bool.false_eq_true, if_false]
  cases hfi : findIndex (fun q => q.category == c && q.key == k) rest with
  | none => simp [hfi]
  | some i => simp [hfi, List.set]

theorem valsFor_cons (p : Preference) (rest : List Preference) (cat key : String) :
    valsFor (p :: rest) cat key
      = if (p.category == cat && p.key == key) = true
        then p.value :: valsFor rest cat key
        else valsFor rest cat key := by
  unfold valsFor
  rw [List.filter_cons]
  by_cases h : (p.category == cat && p.key == key) = true
  · rw [if_pos h, if_pos h, List.map_cons]
  · rw [if_neg h, if_neg h]

theorem prefPair_beq_iff (p : Preference) (c k : String) :
    (p.category == c && p.key == k) = true ↔ p.category = c ∧ p.key = k := by
  simp

theorem valsFor_eq_nil_of_not_mem {prefs : List Preference} {cat key : String}
    (h : (cat, key) ∉ prefKeys prefs) : valsFor prefs cat key = [] := by
  induction prefs with
  | nil => rfl
  | cons p rest ih =>
    rw [prefKeys, List.map_cons] at h
    rw [List.mem_cons, not_or] at h
    rw [valsFor_cons, if_neg, ih h.2]
    rw [prefPair_beq_iff]
    intro hpk
    exact h.1 (by rw [hpk.1, hpk.2])

theorem prefKeys_update_subset (c k v t : String) :
    ∀ prefs : List Preference, ∀ x ∈ prefKeys (setPrefLocalUpdate c k v t prefs),
      x = (c, k) ∨ x ∈ prefKeys prefs := by
  intro prefs
  induction prefs with
  | nil =>
    intro x hx
    left
    simpa [setPrefLocalUpdate, findIndex, prefKeys] using hx
  | cons p rest ih =>
    intro x hx
    cases hg : (p.category == c && p.key == k) with
    | true =>
      rw [setPrefLocalUpdate_cons_pos v t rest hg, prefKeys, List.map_cons,
        List.mem_cons] at hx
      rcases hx with hx | hx
      · exact Or.inl hx
      · exact Or.inr (List.mem_cons_of_mem _ hx)
    | false =>
      rw [setPrefLocalUpdate_cons_neg v t rest hg, prefKeys, List.map_cons,
        List.mem_cons] at hx
      rcases hx with hx | hx
      · refine Or.inr ?_
        rw [prefKeys, List.map_cons, hx]
        exact List.mem_cons_self _ _
      · rcases ih x hx with hx' | hx'
        · exact Or.inl hx'
        · exact Or.inr (List.mem_cons_of_mem _ hx')

theorem keysNodup_update {c k v t : String} :
    ∀ {prefs : List Preference}, keysNodup prefs →
      keysNodup (setPrefLocalUpdate c k v t prefs) := by
  intro prefs
  induction prefs with
  | nil =>
    intro _
    simp [setPrefLocalUpdate, findIndex, keysNodup, prefKeys]
  | cons p rest ih =>
    intro hn
    rw [keysNodup, prefKeys, List.map_cons, List.nodup_cons] at hn
    cases hg : (p.category == c && p.key == k) with
    | true =>
      rw [keysNodup, setPrefLocalUpdate_cons_pos v t rest hg, prefKeys,
        List.map_cons, List.nodup_cons]
      have hpk := (prefPair_beq_iff p c k).1 hg
      exact ⟨by rw [← hpk.1, ← hpk.2]; exact hn.1, hn.2⟩
    | false =>
      rw [keysNodup, setPrefLocalUpdate_cons_neg v t rest hg, prefKeys,
        List.map_cons, List.nodup_cons]
      refine ⟨?_, ih hn.2⟩
      intro hmem
      rcases prefKeys_update_subset c k v t rest _ hmem with hx | hx
      · rw [Prod.ext_iff] at hx
        exact absurd ((prefPair_beq_iff p c k).2 ⟨hx.1, hx.2⟩) (by rw [hg]; decide)
      · exact hn.1 hx

theorem pair_beq_eq_false (a b c d : String) :
    (a == b && c == d) = false ↔ ¬(a = b ∧ c = d) := by
  constructor
  · intro h hc
    rw [(by simp : ((a == b && c == d) = true ↔ a = b ∧ c = d)).2 hc] at h
    exact Bool.noConfusion h
  · intro h
    cases hb : (a == b && c == d) with
    | false => rfl
    | true => exact absurd (by simpa using hb) h

theorem valsFor_update {c k : String} (v t : String) {cat key : String} :
    ∀ {prefs : List Preference}, keysNodup prefs →
      valsFor (setPrefLocalUpdate c k v t prefs) cat key
        = if (c == cat && k == key) = true then [v]
          else valsFor prefs cat key := by
  intro prefs
  induction prefs with
  | nil =>
    intro _
    show valsFor ([] ++ [{ category := c, key := k, value := v, created_at := some t }]) cat key = _
    rw [List.nil_append, valsFor_cons]
    rfl
  | cons p rest ih =>
    intro hn
    rw [keysNodup, prefKeys, List.map_cons, List.nodup_cons] at hn
    cases hg : (p.category == c && p.key == k) with
    | true =>
      have hpk := (prefPair_beq_iff p c k).1 hg
      rw [setPrefLocalUpdate_cons_pos v t rest hg,
        show valsFor ({ category := c, key := k, value := v, created_at := some t } :: rest) cat key
            = if (c == cat && k == key) = true
              then v :: valsFor rest cat key else valsFor rest cat key from
          valsFor_cons _ rest cat key]
      by_cases hq : (c == cat && k == key) = true
      · rw [if_pos hq, if_pos hq]
        have hck : c = cat ∧ k = key := by simpa using hq
        have hnm : (cat, key) ∉ prefKeys rest := by
          rw [← hck.1, ← hck.2, ← hpk.1, ← hpk.2]
          exact hn.1
        rw [valsFor_eq_nil_of_not_mem hnm]
      · have hpq : ¬(p.category == cat && p.key == key) = true := by
          intro hx
          have hx' : p.category = cat ∧ p.key = key := by simpa using hx
          exact hq (by
            simp only [beq_iff_eq, Bool.and_eq_true]
            exact ⟨hpk.1.symm.trans hx'.1, hpk.2.symm.trans hx'.2⟩)
        rw [if_neg hq, if_neg hq, valsFor_cons, if_neg hpq]
    | false =>
      rw [setPrefLocalUpdate_cons_neg v t rest hg, valsFor_cons, ih hn.2, valsFor_cons]
      by_cases hq : (c == cat && k == key) = true
      · have hck : c = cat ∧ k = key := by simpa using hq
        have hpk := (pair_beq_eq_false p.category c p.key k).1 hg
        have hpq : ¬(p.category == cat && p.key == key) = true := by
          intro hx
          have hx' : p.category = cat ∧ p.key = key := by simpa using hx
          exact hpk ⟨hx'.1.trans hck.1.symm, hx'.2.trans hck.2.symm⟩
        rw [if_pos hq, if_neg hpq, if_pos hq]
      · rw [if_neg hq, if_neg hq]

theorem getLast?_cons_eq (a : α) (l : List α) :
    (a :: l).getLast? = some (l.getLast?.getD a) := by
  induction l generalizing a with
  | nil => rfl
  | cons b l ih => simp [List.getLast?_cons_cons, ih]

theorem lastSetValue_cons (c : PrefCall) (rest : List PrefCall) (cat key : String) :
    lastSetValue (c :: rest) cat key
      = match lastSetValue rest cat key with
        | some v => some v
        | none =>
          if (c.category == cat && c.key == key) = true then some c.value else none := by
  unfold lastSetValue
  rw [List.filter_cons]
  by_cases hq : (c.category == cat && c.key == key) = true
  · rw [if_pos hq, List.map_cons, getLast?_cons_eq]
    cases h : (List.map (fun c => c.value)
        (List.filter (fun c => c.category == cat && c.key == key) rest)).getLast? with
    | none => simp [h, hq]
    | some v => simp [h]
  · rw [if_neg hq]
    cases h : (List.map (fun c => c.value)
        (List.filter (fun c => c.category == cat && c.key == key) rest)).getLast? with
    | none => simp [h, hq]
    | some v => simp [h]

theorem valsFor_foldl (calls : List PrefCall) :
    ∀ prefs : List Preference, keysNodup prefs → ∀ cat key : String,
      valsFor
        (calls.foldl
          (fun prefs c => setPrefLocalUpdate c.category c.key c.value c.nowIso prefs)
          prefs) cat key
        = match lastSetValue calls cat key with
          | some v => [v]
          | none => valsFor prefs cat key := by
  induction calls with
  | nil => intro prefs _ cat key; rfl
  | cons c rest ih =>
    intro prefs hn cat key
    rw [List.foldl_cons, ih _ (keysNodup_update hn) cat key, lastSetValue_cons]
    cases hr : lastSetValue rest cat key with
    | some v => rfl
    | none =>
      show valsFor (setPrefLocalUpdate c.category c.key c.value c.nowIso prefs) cat key = _
      rw [valsFor_update c.value c.nowIso hn]
      by_cases hq : (c.category == cat && c.key == key) = true
      · rw [if_pos hq]
        simp [hq]
      · rw [if_neg hq]
        simp [hq]

/-- C5: after any sequence of `setPreference` calls the preferences
collection holds at most one entry per `(category, key)` pair, and the
stored value for a pair is exactly the value of the most recent call
for that pair (upsert, not duplicate). -/
theorem C5_preferences_upsert (calls : List PrefCall) (cat key : String) :
    valsFor (runSetPrefs calls) cat key = (lastSetValue calls cat key).toList ∧
    (valsFor (runSetPrefs calls) cat key).length ≤ 1 := by
  have h := valsFor_foldl calls [] (by simp [keysNodup, prefKeys]) cat key
  cases hr : lastSetValue calls cat key with
  | none =>
    rw [hr] at h
    have hnil : valsFor ([] : List Preference) cat key = [] := rfl
    rw [hnil] at h
    constructor
    · rw [runSetPrefs, h]
      rfl
    · rw [runSetPrefs, h]
      exact Nat.zero_le 1
  | some v =>
    rw [hr] at h
    constructor
    · rw [runSetPrefs, h]
      rfl
    · rw [runSetPrefs, h]
      exact Nat.le_refl 1

theorem runEvts_thoughtLogs (env : Env) (evts : List FrontEvt) :
    ∀ st : ChatState, st.thoughtLogs.length ≤ MAX_THOUGHT_LOGS →
      (runEvts env st evts).thoughtLogs
        = takeLast MAX_THOUGHT_LOGS (st.thoughtLogs ++ extractThoughts evts) := by
  induction evts with
  | nil =>
    intro st h
    show st.thoughtLogs = _
    rw [extractThoughts, List.filterMap_nil, List.append_nil, takeLast_of_le h]
  | cons e rest ih =>
    intro st h
    rw [runEvts_cons]
    cases e with
    | token q =>
      rw [ih (handleEvt env st (.token q)) h]
      rfl
    | thought t =>
      rw [ih (handleEvt env st (.thought t)) (length_takeLast _ _)]
      show takeLast _ (takeLast _ (st.thoughtLogs ++ [t]) ++ extractThoughts rest) = _
      rw [takeLast_append_takeLast, List.append_assoc]
      rfl
    | complete =>
      rw [ih (handleEvt env st .complete) h]
      rfl

/-- C7: starting from the initial store, after any stream of events the
thought log holds exactly the most recent (up to 20) thought events in
arrival order, and never more than `MAX_THOUGHT_LOGS = 20` entries. -/
theorem C7_thought_log_window (env : Env) (evts : List FrontEvt) :
    (runEvts env initialChatState evts).thoughtLogs
      = takeLast MAX_THOUGHT_LOGS (extractThoughts evts) ∧
    (runEvts env initialChatState evts).thoughtLogs.length ≤ MAX_THOUGHT_LOGS := by
  have h := runEvts_thoughtLogs env evts initialChatState (by decide)
  constructor
  · rw [h]
    rfl
  · rw [h]
    exact length_takeLast _ _

theorem runSensorUpdates_cons (st : SensorState) (d : SensorData) (us : List SensorData) :
    runSensorUpdates st (d :: us) = runSensorUpdates (handleSensorUpdate st d) us := rfl

theorem runSensorUpdates_histories (us : List SensorData) :
    ∀ st : SensorState,
      st.cpuHistory.length ≤ MAX_HISTORY → st.memoryHistory.length ≤ MAX_HISTORY →
      (runSensorUpdates st us).cpuHistory
        = takeLast MAX_HISTORY (st.cpuHistory ++ us.map fun d => d.cpu_usage) ∧
      (runSensorUpdates st us).memoryHistory
        = takeLast MAX_HISTORY (st.memoryHistory ++ us.map fun d => d.memory_percent) := by
  induction us with
  | nil =>
    intro st h1 h2
    constructor
    · show st.cpuHistory = _
      rw [List.map_nil, List.append_nil, takeLast_of_le h1]
    · show st.memoryHistory = _
      rw [List.map_nil, List.append_nil, takeLast_of_le h2]
  | cons d rest ih =>
    intro st h1 h2
    rw [runSensorUpdates_cons]
    obtain ⟨ih1, ih2⟩ :=
      ih (handleSensorUpdate st d) (length_takeLast _ _) (length_takeLast _ _)
    constructor
    · rw [ih1]
      show takeLast _ (takeLast _ (st.cpuHistory ++ [d.cpu_usage]) ++ _) = _
      rw [takeLast_append_takeLast, List.append_assoc]
      rfl
    · rw [ih2]
      show takeLast _ (takeLast _ (st.memoryHistory ++ [d.memory_percent]) ++ _) = _
      rw [takeLast_append_takeLast, List.append_assoc]
      rfl

/-- C8 (counterexample): after module initialisation the top-level
`sensorData.subscribe` has already (synchronously, as Svelte subscribe
does) recorded the initial zero reading, so after one update with
`cpu_usage = 5` the CPU history is `[0, 5]`, not `[5]` — it is not
exactly the fields of the received updates. -/
theorem C8_counterexample :
    (runSensorUpdates (moduleInitSensorState 0) [sensorSample5]).cpuHistory = [0, 5] ∧
    ([0, 5] : List ℚ) ≠ [5] := by
  constructor
  · rfl
  · decide

/-- C8 (amended): each history is the last up-to-60 samples of the
sequence consisting of one initial zero sample (recorded by the
immediate subscription callback at module load) followed by the
corresponding fields of the updates in arrival order; each history
holds at most `MAX_HISTORY = 60` samples, evicting oldest first. -/
theorem C8_history_window (t0 : ℚ) (us : List SensorData) :
    (runSensorUpdates (moduleInitSensorState t0) us).cpuHistory
      = takeLast MAX_HISTORY (0 :: us.map fun d => d.cpu_usage) ∧
    (runSensorUpdates (moduleInitSensorState t0) us).memoryHistory
      = takeLast MAX_HISTORY (0 :: us.map fun d => d.memory_percent) ∧
    (runSensorUpdates (moduleInitSensorState t0) us).cpuHistory.length ≤ MAX_HISTORY ∧
    (runSensorUpdates (moduleInitSensorState t0) us).memoryHistory.length ≤ MAX_HISTORY := by
  obtain ⟨h1, h2⟩ :=
    runSensorUpdates_histories us (moduleInitSensorState t0)
      (by show ([0] : List ℚ).length ≤ MAX_HISTORY; decide)
      (by show ([0] : List ℚ).length ≤ MAX_HISTORY; decide)
  refine ⟨?_, ?_, ?_, ?_⟩
  · rw [h1]; rfl
  · rw [h2]; rfl
  · rw [h1]; exact length_takeLast _ _
  · rw [h2]; exact length_takeLast _ _

/-- C10: a blank (empty or whitespace-only) input makes both
`sendMessage` and `startStreamingChat` return immediately: the chat
state is unchanged and no backend command is invoked. -/
theorem C10_blank_message_noop (env : Env) (content : String)
    (r : Except String ChatResponse) (evts : List FrontEvt) (invokeOk : Bool)
    (st : ChatState) (h : jsTrim content = "") :
    sendMessage env content r st = (st, []) ∧
    startStreamingChat env content evts invokeOk st = (st, []) := by
  constructor
  · unfold sendMessage
    rw [if_pos h]
  · unfold startStreamingChat
    rw [if_pos h]

/-- C10 (witness): the whitespace-only input `"  "` is a no-op. -/
theorem C10_witness :
    jsTrim "  " = "" ∧
    sendMessage ⟨"id", 0⟩ "  " (Except.error "backend down") initialChatState
      = (initialChatState, []) ∧
    startStreamingChat ⟨"id", 0⟩ "  " [FrontEvt.token "x"] true initialChatState
      = (initialChatState, []) :=
  ⟨by decide,
    C10_blank_message_noop ⟨"id", 0⟩ "  " (Except.error "backend down")
      [FrontEvt.token "x"] true initialChatState (by decide)⟩

end Jarvis
